import Mathlib

/-!
Shallow embedding of `salt/runners/manage.py` (fleet management runner):
`status`, `key_regen`, `down`, `up`, `versions`.

Modelling conventions:
* An agent/minion identifier and a version string are Lean `String`s.
* Python 2 `cmp` on strings compares code points lexicographically; it is
  embedded as `cmpChars` on the underlying character lists with `Char.toNat`.
* Python `sorted` on strings uses the same code-point order; it is embedded
  as `List.insertionSort pyLe` (any sort producing the `pyLe`-sorted
  permutation is the same function, since `pyLe` is total and antisymmetric).
* A Python dict is embedded as an association list `List (String × String)`
  (its keys are distinct, stated as a `Nodup` hypothesis where needed), or,
  for the dict produced by `versions`, as the function from a key (bucket
  label) to the stored list (`[]` meaning the key is absent).
* Exception-raising code runs in `Except String`; a `try/except os.error:
  pass` block is embedded by catching the error and continuing.
-/

/-- Python 2 `cmp` on two strings, acting on their character lists:
lexicographic comparison of code points, returning -1, 0 or 1. -/
def cmpChars : List Char → List Char → Int
  | [], [] => 0
  | [], _ :: _ => -1
  | _ :: _, [] => 1
  | a :: as, b :: bs =>
    if a.toNat < b.toNat then -1
    else if b.toNat < a.toNat then 1
    else cmpChars as bs

/-- Python 2 `cmp(a, b)` for strings `a`, `b`. -/
def pyCmp (a b : String) : Int := cmpChars a.data b.data

/-- The (non-strict) order underlying Python string comparison:
`a <= b` iff `cmp(a, b) <= 0`. -/
def pyLe (a b : String) : Prop := pyCmp a b ≤ 0

instance : DecidableRel pyLe := fun a b =>
  inferInstanceAs (Decidable (pyCmp a b ≤ 0))

/-- Python `sorted` on a list of strings. -/
def sortedPy (l : List String) : List String := l.insertionSort pyLe

/-- Python `s.split('-')`, on the character list: split at every dash,
keeping empty segments. -/
def splitDashAux : List Char → List Char → List (List Char)
  | [], acc => [acc.reverse]
  | c :: rest, acc =>
    if c = '-' then acc.reverse :: splitDashAux rest []
    else splitDashAux rest (c :: acc)

/-- Python `v.split('-')` for a string `v`. -/
def pySplitDash (v : String) : List String :=
  (splitDashAux v.data []).map String.mk

/-- Python `'-'.join(l)`. -/
def joinDash : List String → String
  | [] => ""
  | [s] => s
  | s :: rest => s ++ "-" ++ joinDash rest

/-- The up/down partition returned by `status` (the dict
`{'up': ..., 'down': ...}`). -/
structure Partition where
  up : List String
  down : List String
deriving DecidableEq

/-- `manage.status`: `minions` is the key list of the dict returned by the
`test.ping` broadcast (the responders), `keysMinions` is `key.list_keys()['minions']`
(the registered identities).  `up = sorted(minions)`;
`down = sorted(set(keys['minions']) - set(minions))`. -/
def status (minions : List String) (keysMinions : List String) : Partition :=
  { up := sortedPy minions
    down := sortedPy ((keysMinions.filter (fun k => decide (k ∉ minions))).dedup) }

-- quick sanity checks of the embedding (spec §8 scenario)
example : status ["c", "a"] ["a", "b", "c"] = { up := ["a", "c"], down := ["b"] } := by
  decide

/-- `status` built from the raw broadcast responses in arrival order:
the dict maps each responding minion id to its reply, so the key list is
the response ids with duplicates collapsed. -/
def statusFromResponses (responses : List (String × String))
    (keysMinions : List String) : Partition :=
  status ((responses.map Prod.fst).dedup) keysMinions

/-- Version normalization in `manage.versions`: split on dashes; a string
with exactly three components `A-B-C` becomes `'-'.join(comps[0:2]) = A-B`;
any other component count is left as-is. -/
def normalizeVersion (v : String) : String :=
  let comps := pySplitDash v
  if comps.length = 3 then joinDash (comps.take 2) else v

/-- The `labels` dict of `manage.versions`, mapping the result of `cmp` to
the bucket label.  `cmp` only returns -1, 0 or 1, so only those keys exist. -/
def labelOf (d : Int) : String :=
  if d = -1 then "Minion requires update"
  else if d = 0 then "Up to date"
  else "Minion newer than master"

/-- `manage.versions`, as the dict it returns, embedded as the function from
a bucket label to the list stored under it (`[]` when the key is absent).
`masterRaw` is `salt.__version__`; `minions` is the `test.version` broadcast
result as an association list (minion id, reported version).  The code groups
minions by `cmp(minion_version, master_version)` and appends each group to
`ret[labels[key]]` in sorted order, so the list under a label is the sorted
list of ids whose comparison result maps to that label. -/
def versions (masterRaw : String) (minions : List (String × String)) :
    String → List String :=
  fun label =>
    let masterVersion := normalizeVersion masterRaw
    sortedPy ((minions.filter
      (fun p => decide (labelOf (pyCmp (normalizeVersion p.2) masterVersion) = label))).map
      Prod.fst)

/-- `versions` with the normalization already applied to its inputs: used to
state that normalization is applied to both the controller version and every
minion version before comparison. -/
def versionsPre (masterVersion : String) (minions : List (String × String)) :
    String → List String :=
  fun label =>
    sortedPy ((minions.filter
      (fun p => decide (labelOf (pyCmp p.2 masterVersion) = label))).map Prod.fst)

-- sanity: the normalization examples of spec §8
example : normalizeVersion "2014.7.0-123-abcdef" = "2014.7.0-123" := by decide
example : normalizeVersion "2016.3.0" = "2016.3.0" := by decide
example : versions "2016.3.0"
    [("x", "2016.3.0"), ("y", "2015.8.0"), ("z", "2016.3.0-99-abc")]
    "Minion newer than master" = ["z"] := by decide

/-- One entry of the credential-storage (`pki_dir`) tree as enumerated by
`os.walk`: either a regular file or a directory, identified by its path. -/
inductive FsEntry
  | file (path : String)
  | dir (path : String)
deriving DecidableEq

/-- The file paths of a tree, in `os.walk` enumeration order: the removal
loop iterates exactly over these (directories are never visited by it). -/
def walkFiles (tree : List FsEntry) : List String :=
  tree.filterMap fun e =>
    match e with
    | .file p => some p
    | .dir _ => none

/-- `os.remove(path)`, parameterised by which removals the OS allows:
success, or an `os.error`. -/
def osRemove (removeOk : String → Bool) (path : String) : Except String Unit :=
  if removeOk path then .ok () else .error "os.error"

/-- The purge loop of `manage.key_regen`:
`for fn_ in files: try: os.remove(path) except os.error: pass`.
Returns the list of files actually removed; an `os.error` on one file is
swallowed and the loop continues with the remaining files. -/
def purgeFiles (removeOk : String → Bool) : List String → Except String (List String)
  | [] => .ok []
  | f :: fs =>
    match osRemove removeOk f with
    | .ok _ => (purgeFiles removeOk fs).map (f :: ·)
    | .error _ => purgeFiles removeOk fs

/-- The tree after the purge loop: only regular files whose removal
succeeded disappear; directories are untouched. -/
def purgeTree (removeOk : String → Bool) (tree : List FsEntry) : List FsEntry :=
  tree.filter fun e =>
    match e with
    | .dir _ => true
    | .file p => !removeOk p

/-- The instructional message printed at the end of `manage.key_regen`. -/
def restartMsg : String :=
  "The minion and master keys have been deleted.  Restart the Salt\n" ++
  "Master within the next 60 seconds!!!\n\n" ++
  "Wait for the minions to reconnect.  Once the minions reconnect\n" ++
  "the new keys will appear in pending and will need to be re-\n" ++
  "accepted by running:\n" ++
  "    salt-key -A\n\n" ++
  "Be advised that minions not currently connected to the master\n" ++
  "will not be able to reconnect and may require manual\n" ++
  "regeneration via a local call to\n" ++
  "    salt-call saltutil.regen_keys"

/-- The controller-side observable outcome of `manage.key_regen`: the files
removed from the credential tree and the message printed.  The Python
function itself returns `None`. -/
structure RegenOutcome where
  removed : List String
  printed : String
deriving DecidableEq

/-- `manage.key_regen`.  `broadcastResp` is the (unused) result of the
`saltutil.regen_keys` broadcast; `removeOk` says which file removals the OS
allows; `pkiFiles` is the file enumeration of the `pki_dir` tree. -/
def key_regen (broadcastResp : List (String × String)) (removeOk : String → Bool)
    (pkiFiles : List String) : Except String RegenOutcome :=
  (purgeFiles removeOk pkiFiles).map fun removed =>
    { removed := removed, printed := restartMsg }

/-- One observable side effect of `manage.down` on a minion in the down
list: a `salt-key -qyd <id>` delete request, or rendering the id. -/
inductive DownEffect
  | deleteKey (id : String)
  | render (id : String)
deriving DecidableEq

/-- `manage.down`: computes `status(output=False)['down']`, then for each
down minion either issues one key delete request (`removekeys=True`) or
renders the id.  `exitCode` gives the exit status of each `salt-key`
subprocess; `subprocess.call` returns it without raising, so it influences
nothing.  Returns the down list and the effect sequence. -/
def down (removekeys : Bool) (exitCode : String → Int) (minions keysMinions : List String) :
    List String × List DownEffect :=
  let ret := (status minions keysMinions).down
  (ret, ret.map fun m =>
    if removekeys then DownEffect.deleteKey m else DownEffect.render m)

/-! ### Order theory of the embedded Python string comparison -/

theorem Char.toNat_inj_emb {a b : Char} (h : a.toNat = b.toNat) : a = b := by
  have := congrArg Char.ofNat h
  rwa [Char.ofNat_toNat, Char.ofNat_toNat] at this

theorem cmpChars_neg (a : List Char) : ∀ b, cmpChars b a = -cmpChars a b := by
  induction a with
  | nil => intro b; cases b <;> simp [cmpChars]
  | cons x xs ih =>
    intro b
    cases b with
    | nil => simp [cmpChars]
    | cons y ys =>
      simp only [cmpChars]
      rcases Nat.lt_trichotomy x.toNat y.toNat with h | h | h
      · rw [if_neg (Nat.lt_asymm h), if_pos h, if_pos h]; decide
      · rw [if_neg (h ▸ Nat.lt_irrefl _), if_neg (h ▸ Nat.lt_irrefl _),
          if_neg (h ▸ Nat.lt_irrefl _), if_neg (h ▸ Nat.lt_irrefl _)]
        exact ih ys
      · rw [if_pos h, if_neg (Nat.lt_asymm h), if_pos h]

theorem cmpChars_trichot (a : List Char) :
    ∀ b, cmpChars a b = -1 ∨ cmpChars a b = 0 ∨ cmpChars a b = 1 := by
  induction a with
  | nil => intro b; cases b <;> simp [cmpChars]
  | cons x xs ih =>
    intro b
    cases b with
    | nil => simp [cmpChars]
    | cons y ys =>
      simp only [cmpChars]
      split
      · simp
      · split
        · simp
        · exact ih ys

theorem cmpChars_eq_zero (a : List Char) : ∀ b, cmpChars a b = 0 ↔ a = b := by
  induction a with
  | nil => intro b; cases b <;> simp [cmpChars]
  | cons x xs ih =>
    intro b
    cases b with
    | nil => simp [cmpChars]
    | cons y ys =>
      simp only [cmpChars]
      rcases Nat.lt_trichotomy x.toNat y.toNat with h | h | h
      · rw [if_pos h]
        constructor
        · intro hc; exact absurd hc (by decide)
        · rintro ⟨rfl, rfl⟩; exact absurd h (Nat.lt_irrefl _)
      · rw [if_neg (h ▸ Nat.lt_irrefl _), if_neg (h ▸ Nat.lt_irrefl _)]
        have hx : x = y := Char.toNat_inj_emb h
        subst hx
        simp [ih ys]
      · rw [if_neg (Nat.lt_asymm h), if_pos h]
        constructor
        · intro hc; exact absurd hc (by decide)
        · rintro ⟨rfl, rfl⟩; exact absurd h (Nat.lt_irrefl _)

theorem cmpChars_le_trans {a b c : List Char}
    (hab : cmpChars a b ≤ 0) (hbc : cmpChars b c ≤ 0) : cmpChars a c ≤ 0 := by
  induction a generalizing b c with
  | nil =>
    cases c with
    | nil => simp [cmpChars]
    | cons z zs => simp [cmpChars]
  | cons x xs ih =>
    cases b with
    | nil => simp [cmpChars] at hab
    | cons y ys =>
      cases c with
      | nil => simp [cmpChars] at hbc
      | cons z zs =>
        simp only [cmpChars] at hab hbc ⊢
        rcases Nat.lt_trichotomy x.toNat y.toNat with hxy | hxy | hxy
        · rcases Nat.lt_trichotomy y.toNat z.toNat with hyz | hyz | hyz
          · rw [if_pos (Nat.lt_trans hxy hyz)]; decide
          · rw [if_pos (hyz ▸ hxy)]; decide
          · rw [if_pos hyz, if_neg (Nat.lt_asymm hyz)] at hbc
            exact absurd hbc (by decide)
        · rcases Nat.lt_trichotomy y.toNat z.toNat with hyz | hyz | hyz
          · rw [if_pos (hxy ▸ hyz)]; decide
          · rw [if_neg ((hxy.trans hyz) ▸ Nat.lt_irrefl _),
              if_neg ((hxy.trans hyz) ▸ Nat.lt_irrefl _)]
            rw [if_neg (hxy ▸ Nat.lt_irrefl _), if_neg (hxy ▸ Nat.lt_irrefl _)] at hab
            rw [if_neg (hyz ▸ Nat.lt_irrefl _), if_neg (hyz ▸ Nat.lt_irrefl _)] at hbc
            exact ih hab hbc
          · rw [if_pos hyz, if_neg (Nat.lt_asymm hyz)] at hbc
            exact absurd hbc (by decide)
        · rw [if_pos hxy, if_neg (Nat.lt_asymm hxy)] at hab
          exact absurd hab (by decide)

instance : IsTrans String pyLe :=
  ⟨fun _ _ _ hab hbc => cmpChars_le_trans hab hbc⟩

instance : IsTotal String pyLe := by
  refine ⟨fun a b => ?_⟩
  rcases cmpChars_trichot a.data b.data with h | h | h
  · exact Or.inl (by unfold pyLe pyCmp; omega)
  · exact Or.inl (by unfold pyLe pyCmp; omega)
  · right
    unfold pyLe pyCmp
    rw [cmpChars_neg, h]
    decide

instance : IsAntisymm String pyLe := by
  refine ⟨fun a b hab hba => ?_⟩
  unfold pyLe pyCmp at hab hba
  rw [cmpChars_neg] at hba
  have h0 : cmpChars a.data b.data = 0 := by omega
  have hd : a.data = b.data := (cmpChars_eq_zero _ _).mp h0
  cases a; cases b
  exact congrArg String.mk hd

instance : IsRefl String pyLe := by
  refine ⟨fun a => ?_⟩
  unfold pyLe pyCmp
  rw [(cmpChars_eq_zero a.data a.data).mpr rfl]

/-! ### Helper lemmas -/

theorem mem_sortedPy {l : List String} {x : String} : x ∈ sortedPy l ↔ x ∈ l :=
  List.mem_insertionSort pyLe

theorem sortedPy_sorted (l : List String) : (sortedPy l).Sorted pyLe :=
  List.sorted_insertionSort pyLe l

theorem sortedPy_eq_of_perm {l1 l2 : List String} (h : l1.Perm l2) :
    sortedPy l1 = sortedPy l2 :=
  List.eq_of_perm_of_sorted
    ((List.perm_insertionSort pyLe l1).trans (h.trans (List.perm_insertionSort pyLe l2).symm))
    (sortedPy_sorted l1) (sortedPy_sorted l2)

theorem status_perm {S1 S2 R1 R2 : List String} (hS : S1.Perm S2) (hR : R1.Perm R2) :
    status S1 R1 = status S2 R2 := by
  unfold status
  have hup : sortedPy S1 = sortedPy S2 := sortedPy_eq_of_perm hS
  have hfil : (R1.filter (fun k => decide (k ∉ S1))).Perm
      (R2.filter (fun k => decide (k ∉ S2))) := by
    have h1 : (R1.filter (fun k => decide (k ∉ S1))).Perm
        (R2.filter (fun k => decide (k ∉ S1))) :=
      List.Perm.filter _ hR
    have h2 : R2.filter (fun k => decide (k ∉ S1)) =
        R2.filter (fun k => decide (k ∉ S2)) :=
      List.filter_congr (fun x _ => by simp [hS.mem_iff])
    exact h2 ▸ h1
  have hdown : sortedPy ((R1.filter (fun k => decide (k ∉ S1))).dedup) =
      sortedPy ((R2.filter (fun k => decide (k ∉ S2))).dedup) :=
    sortedPy_eq_of_perm hfil.dedup
  rw [hup, hdown]

theorem purgeFiles_eq (removeOk : String → Bool) (files : List String) :
    purgeFiles removeOk files = .ok (files.filter removeOk) := by
  induction files with
  | nil => rfl
  | cons f fs ih =>
    simp only [purgeFiles, osRemove]
    by_cases h : removeOk f
    · simp [h, ih, List.filter_cons, Except.map]
    · simp [h, ih, List.filter_cons]

theorem mem_versions {masterRaw : String} {minions : List (String × String)}
    {label m : String} :
    m ∈ versions masterRaw minions label ↔
      ∃ v, (m, v) ∈ minions ∧
        labelOf (pyCmp (normalizeVersion v) (normalizeVersion masterRaw)) = label := by
  unfold versions
  simp only [mem_sortedPy, List.mem_map, List.mem_filter, decide_eq_true_eq]
  constructor
  · rintro ⟨⟨a, b⟩, ⟨hmem, hlab⟩, rfl⟩
    exact ⟨b, hmem, hlab⟩
  · rintro ⟨v, hmem, hlab⟩
    exact ⟨(m, v), ⟨hmem, hlab⟩, rfl⟩

theorem labelOf_mem_labels (d : Int) :
    labelOf d ∈ ["Minion requires update", "Up to date", "Minion newer than master"] := by
  unfold labelOf
  split
  · simp
  · split <;> simp

/-! ### The claims -/

/-- C1: for every registered-identity set R and responder mapping S,
`status` returns up = sorted(S) and down = sorted(set(R) - set(S)); up and
down are disjoint, and a responder that is not registered appears in up and
never in down. -/
theorem c1_status_partition (S R : List String) :
    (status S R).up = sortedPy S ∧
    (status S R).down = sortedPy ((R.filter (fun k => decide (k ∉ S))).dedup) ∧
    (∀ x, x ∈ (status S R).up → x ∉ (status S R).down) ∧
    (∀ x, x ∈ S → x ∉ R → x ∈ (status S R).up ∧ x ∉ (status S R).down) := by
  refine ⟨rfl, rfl, ?_, ?_⟩
  · intro x hup hdown
    have hS : x ∈ S := by
      simpa [status, mem_sortedPy] using hup
    have hnS : x ∉ S := by
      have h := hdown
      simp only [status, mem_sortedPy, List.mem_dedup, List.mem_filter,
        decide_eq_true_eq] at h
      exact h.2
    exact hnS hS
  · intro x hxS hxR
    refine ⟨by simpa [status, mem_sortedPy] using hxS, ?_⟩
    intro hdown
    have h := hdown
    simp only [status, mem_sortedPy, List.mem_dedup, List.mem_filter,
      decide_eq_true_eq] at h
    exact hxR h.1

/-- C1 witness: concrete instance with an unregistered responder `d`. -/
theorem c1_status_partition_witness :
    "d" ∈ (status ["c", "a", "d"] ["a", "b", "c"]).up ∧
    "d" ∉ (status ["c", "a", "d"] ["a", "b", "c"]).down :=
  (c1_status_partition ["c", "a", "d"] ["a", "b", "c"]).2.2.2 "d" (by decide) (by decide)

/-- C9: `status` is a deterministic function of the responder collection and
the registered-identity list, independent of the order in which responses
arrive or keys are listed: any permutations of the two inputs give the same
partition (and in particular two calls on the same fleet state agree). -/
theorem c9_status_order_independent (resp1 resp2 : List (String × String))
    (R1 R2 : List String) (hresp : resp1.Perm resp2) (hR : R1.Perm R2) :
    statusFromResponses resp1 R1 = statusFromResponses resp2 R2 := by
  unfold statusFromResponses
  exact status_perm ((hresp.map Prod.fst).dedup) hR

/-- C9 witness: a concrete permutation of arrival order. -/
theorem c9_status_order_independent_witness :
    statusFromResponses [("b", "True"), ("a", "True")] ["a", "b", "c"] =
      statusFromResponses [("a", "True"), ("b", "True")] ["c", "a", "b"] :=
  c9_status_order_independent _ _ _ _ (by decide) (by decide)

/-- C5: if the deletion of any one file k of the credential tree fails, the
`key_regen` purge still removes every other file and the operation completes
without raising (`Except.ok`, never `Except.error`). -/
theorem c5_key_regen_purge_resilient (broadcastResp : List (String × String))
    (files : List String) (removeOk : String → Bool) (k : String)
    (hk : k ∈ files) (hkfail : removeOk k = false)
    (hothers : ∀ f ∈ files, f ≠ k → removeOk f = true) :
    ∃ outcome, key_regen broadcastResp removeOk files = .ok outcome ∧
      (∀ f ∈ files, f ≠ k → f ∈ outcome.removed) ∧ k ∉ outcome.removed := by
  refine ⟨{ removed := files.filter removeOk, printed := restartMsg }, ?_, ?_, ?_⟩
  · unfold key_regen
    rw [purgeFiles_eq]
    rfl
  · intro f hf hne
    simp [List.mem_filter, hf, hothers f hf hne]
  · simp [List.mem_filter, hkfail]

/-- C5 witness: three files, deletion of `b` fails, `a` and `c` are still
removed and the purge returns normally. -/
theorem c5_key_regen_purge_resilient_witness :
    ∃ outcome,
      key_regen [] (fun f => decide (f ≠ "b")) ["a", "b", "c"] = .ok outcome ∧
      (∀ f ∈ ["a", "b", "c"], f ≠ "b" → f ∈ outcome.removed) ∧
      "b" ∉ outcome.removed :=
  c5_key_regen_purge_resilient [] ["a", "b", "c"] (fun f => decide (f ≠ "b")) "b"
    (by decide) (by decide) (by decide)

/-- C10: the `key_regen` purge removes only regular files: every directory
of the credential tree survives it, and anything that disappears is one of
the regular files enumerated by the walk. -/
theorem c10_purge_preserves_directories (tree : List FsEntry) (removeOk : String → Bool) :
    (∀ p, FsEntry.dir p ∈ tree → FsEntry.dir p ∈ purgeTree removeOk tree) ∧
    (∀ e ∈ tree, e ∉ purgeTree removeOk tree →
      ∃ q, e = FsEntry.file q ∧ q ∈ walkFiles tree) := by
  constructor
  · intro p hp
    simp only [purgeTree, List.mem_filter]
    exact ⟨hp, trivial⟩
  · intro e he hout
    cases e with
    | dir p =>
      refine absurd ?_ hout
      simp only [purgeTree, List.mem_filter]
      exact ⟨he, trivial⟩
    | file q =>
      refine ⟨q, rfl, ?_⟩
      simp only [walkFiles, List.mem_filterMap]
      exact ⟨FsEntry.file q, he, rfl⟩

/-- C10 witness: a tree with one directory and one removable file. -/
theorem c10_purge_preserves_directories_witness :
    FsEntry.dir "minions" ∈
      purgeTree (fun _ => true) [FsEntry.dir "minions", FsEntry.file "minions/web1"] :=
  (c10_purge_preserves_directories
      [FsEntry.dir "minions", FsEntry.file "minions/web1"] (fun _ => true)).1
    "minions" (by decide)

/-- C8: the controller-side behaviour of `key_regen` does not depend on the
acknowledgment set of the revoke-and-regenerate broadcast; with an empty
credential directory it purges zero files and still emits the
restart-window instruction. -/
theorem c8_key_regen_broadcast_independent (r1 r2 : List (String × String))
    (removeOk : String → Bool) (files : List String) :
    key_regen r1 removeOk files = key_regen r2 removeOk files ∧
    key_regen r1 removeOk [] = .ok { removed := [], printed := restartMsg } :=
  ⟨rfl, rfl⟩

/-- C6: with `removekeys=True`, `down` issues exactly one key-store delete
request per agent of the down set, renders nothing, is unaffected by the
exit status of each delete, and returns the down list. -/
theorem c6_down_removekeys (minions keysMinions : List String) (e1 e2 : String → Int) :
    (down true e1 minions keysMinions).1 = (status minions keysMinions).down ∧
    (down true e1 minions keysMinions).2 =
      (status minions keysMinions).down.map DownEffect.deleteKey ∧
    (∀ m ∈ (status minions keysMinions).down,
      (down true e1 minions keysMinions).2.count (DownEffect.deleteKey m) = 1) ∧
    (∀ m, DownEffect.render m ∉ (down true e1 minions keysMinions).2) ∧
    down true e1 minions keysMinions = down true e2 minions keysMinions := by
  have hnd : (status minions keysMinions).down.Nodup := by
    unfold status sortedPy
    exact ((List.perm_insertionSort pyLe _).symm).nodup (List.nodup_dedup _)
  refine ⟨rfl, by simp [down], ?_, ?_, rfl⟩
  · intro m hm
    have hinj : Function.Injective DownEffect.deleteKey := by
      intro a b h
      simpa using h
    calc (down true e1 minions keysMinions).2.count (DownEffect.deleteKey m)
        = ((status minions keysMinions).down.map DownEffect.deleteKey).count
            (DownEffect.deleteKey m) := by simp [down]
      _ = (status minions keysMinions).down.count m :=
          List.count_map_of_injective _ _ hinj m
      _ = 1 := List.count_eq_one_of_mem hnd hm
  · intro m
    simp [down]

/-- C6 witness: responders a and c, registered a, b, c, d: the effect list
is exactly one delete request for each of b and d. -/
theorem c6_down_removekeys_witness :
    (down true (fun _ => 0) ["a", "c"] ["a", "b", "c", "d"]).2.count
      (DownEffect.deleteKey "b") = 1 :=
  (c6_down_removekeys ["a", "c"] ["a", "b", "c", "d"] (fun _ => 0)
    (fun _ => 1)).2.2.1 "b" (by decide)

/-- C7: version bucketing is total: every responding minion lands in exactly
one bucket, no bucket label outside the three ever carries a minion, and
each bucket is sorted by the embedded Python string order. -/
theorem c7_versions_total (masterRaw : String) (minions : List (String × String))
    (hnd : (minions.map Prod.fst).Nodup) :
    (∀ p ∈ minions,
      ∃ label, label ∈ ["Minion requires update", "Up to date", "Minion newer than master"] ∧
        p.1 ∈ versions masterRaw minions label ∧
        ∀ label2, p.1 ∈ versions masterRaw minions label2 → label2 = label) ∧
    (∀ label,
      label ∉ ["Minion requires update", "Up to date", "Minion newer than master"] →
      versions masterRaw minions label = []) ∧
    (∀ label, (versions masterRaw minions label).Sorted pyLe) := by
  refine ⟨?_, ?_, ?_⟩
  · intro p hp
    refine ⟨labelOf (pyCmp (normalizeVersion p.2) (normalizeVersion masterRaw)),
      labelOf_mem_labels _, ?_, ?_⟩
    · exact mem_versions.mpr ⟨p.2, by simpa using hp, rfl⟩
    · intro label2 h2
      obtain ⟨v, hv, hlab⟩ := mem_versions.mp h2
      have hpair : (p.1, v) = p :=
        List.inj_on_of_nodup_map hnd hv hp rfl
      have hv2 : v = p.2 := by
        have := congrArg Prod.snd hpair
        simpa using this
      rw [← hlab, hv2]
  · intro label hlab
    simp only [versions]
    have hfil : minions.filter
        (fun p => decide (labelOf (pyCmp (normalizeVersion p.2)
          (normalizeVersion masterRaw)) = label)) = [] := by
      rw [List.filter_eq_nil_iff]
      intro p _
      simp only [decide_eq_true_eq]
      intro h
      exact hlab (h ▸ labelOf_mem_labels _)
    rw [hfil]
    rfl
  · intro label
    exact sortedPy_sorted _

/-- C7 witness: concrete fleet; x is bucketed in exactly one label. -/
theorem c7_versions_total_witness :
    ∃ label, label ∈ ["Minion requires update", "Up to date", "Minion newer than master"] ∧
      "x" ∈ versions "2016.3.0" [("x", "2016.3.0"), ("y", "2015.8.0")] label ∧
      ∀ label2, "x" ∈ versions "2016.3.0" [("x", "2016.3.0"), ("y", "2015.8.0")] label2 →
        label2 = label :=
  (c7_versions_total "2016.3.0" [("x", "2016.3.0"), ("y", "2015.8.0")]
    (by decide)).1 ("x", "2016.3.0") (by decide)

/-- C4: version normalization: a string splitting into exactly three
dash-separated segments `A-B-C` normalizes to `A-B`; any other segment
count is left unchanged; and `versions` applies this normalization to both
the controller version and every minion version before comparing. -/
theorem c4_version_normalization (v a b c : String) :
    (pySplitDash v = [a, b, c] → normalizeVersion v = a ++ "-" ++ b) ∧
    ((pySplitDash v).length ≠ 3 → normalizeVersion v = v) ∧
    (∀ masterRaw minions label,
      versions masterRaw minions label =
        versionsPre (normalizeVersion masterRaw)
          (minions.map (fun p => (p.1, normalizeVersion p.2))) label) := by
  refine ⟨?_, ?_, ?_⟩
  · intro h
    unfold normalizeVersion
    rw [h]
    rfl
  · intro h
    unfold normalizeVersion
    rw [if_neg h]
  · intro masterRaw minions label
    unfold versions versionsPre
    rw [List.filter_map]
    rw [List.map_map]
    rfl

/-- C4 witness: the spec's concrete normalization examples. -/
theorem c4_version_normalization_witness :
    normalizeVersion "2014.7.0-123-abcdef" = "2014.7.0" ++ "-" ++ "123" ∧
    normalizeVersion "2016.3.0" = "2016.3.0" :=
  ⟨(c4_version_normalization "2014.7.0-123-abcdef" "2014.7.0" "123" "abcdef").1
      (by decide),
    (c4_version_normalization "2016.3.0" "" "" "").2.1 (by decide)⟩

/-- C2 counterexample: controller `0.9.0`, minion reporting `0.10.0`.
Numerically `0.10.0 > 0.9.0`, so the claim puts the minion in the
newer-than-master bucket; the code compares the raw strings (`"1" < "9"`)
and buckets it as requiring an update. -/
theorem c2_counterexample :
    versions "0.9.0" [("m", "0.10.0")] "Minion requires update" = ["m"] ∧
    versions "0.9.0" [("m", "0.10.0")] "Minion newer than master" = [] := by
  decide

/-- C2 (amended): the normalized minion version is compared to the
normalized controller version with plain code-point string comparison
(Python 2 `cmp`), and the minion is bucketed by its sign; when numeric
ordering disagrees with string ordering the bucket follows the string
ordering. -/
theorem c2_versions_string_comparison (masterRaw : String)
    (minions : List (String × String)) (m v : String) (hm : (m, v) ∈ minions) :
    (pyCmp (normalizeVersion v) (normalizeVersion masterRaw) = -1 →
      m ∈ versions masterRaw minions "Minion requires update") ∧
    (pyCmp (normalizeVersion v) (normalizeVersion masterRaw) = 0 →
      m ∈ versions masterRaw minions "Up to date") ∧
    (pyCmp (normalizeVersion v) (normalizeVersion masterRaw) = 1 →
      m ∈ versions masterRaw minions "Minion newer than master") := by
  refine ⟨?_, ?_, ?_⟩ <;> intro h <;>
    exact mem_versions.mpr ⟨v, hm, by rw [h]; rfl⟩

/-- C2 witness: the string-ordering bucket at the counterexample input. -/
theorem c2_versions_string_comparison_witness :
    "m" ∈ versions "0.9.0" [("m", "0.10.0")] "Minion requires update" :=
  (c2_versions_string_comparison "0.9.0" [("m", "0.10.0")] "m" "0.10.0"
    (by decide)).1 (by decide)

/-- C3 counterexample: in the spec scenario the claim classifies z
(reporting `2016.3.0-99-abc`) as Current, normalizing to the controller's
`2016.3.0`; the code normalizes it to `2016.3.0-99`, which is not equal, so
z is not in the up-to-date bucket. -/
theorem c3_counterexample :
    "z" ∉ versions "2016.3.0"
      [("x", "2016.3.0"), ("y", "2015.8.0"), ("z", "2016.3.0-99-abc")] "Up to date" ∧
    normalizeVersion "2016.3.0-99-abc" ≠ "2016.3.0" := by
  decide

/-- C3 (amended): in the scenario, x is Current and y is Stale, but z is
classified newer-than-master: `2016.3.0-99-abc` normalizes to
`2016.3.0-99`, which compares greater than `2016.3.0`. -/
theorem c3_versions_scenario :
    versions "2016.3.0"
      [("x", "2016.3.0"), ("y", "2015.8.0"), ("z", "2016.3.0-99-abc")]
      "Up to date" = ["x"] ∧
    versions "2016.3.0"
      [("x", "2016.3.0"), ("y", "2015.8.0"), ("z", "2016.3.0-99-abc")]
      "Minion requires update" = ["y"] ∧
    versions "2016.3.0"
      [("x", "2016.3.0"), ("y", "2015.8.0"), ("z", "2016.3.0-99-abc")]
      "Minion newer than master" = ["z"] ∧
    normalizeVersion "2016.3.0-99-abc" = "2016.3.0-99" := by
  decide
